import Mathlib

/-!
Shallow embedding of `src/libs/filtering.c` (darktable's "filters for
collections" GTK module) and proofs about the claims on its rule-set
persistence, rule-count invariant, rule removal, rule history, frame
effects, default fallbacks and the filename raw-text encoding.

The persistent configuration store (`dt_conf_*`, implemented outside this
source slice) is modelled as a record of typed key families: the module
only ever touches the keys `plugins/lighttable/filtering/num_rules`,
`item%d`, `mode%d`, `off%d`, `string%d`, `history%d`, `history_max`
(read only), `nb_use_%d` and `order`; every other persistent key is
collapsed into the opaque field `other`, which stands for the rest of the
key space. `dt_conf_get_string` / `dt_conf_get_string_const` may return
NULL for a missing key, so string-valued keys are `Option`-valued, with
`none` for a missing key and `some []` for the empty string.
C strings are modelled as `List Char` (the bytes up to the terminating
NUL).
-/

namespace Filtering

/-- `#define MAX_RULES 10` -/
def MAX_RULES : Nat := 10

/-- `#define PARAM_STRING_SIZE 256` -/
def PARAM_STRING_SIZE : Nat := 256

/-- Pointwise update of a key family, modelling a `dt_conf_set_*` write of
one key. -/
def fupd {α β : Type} [DecidableEq α] (f : α → β) (a : α) (b : β) : α → β :=
  fun x => if x = a then b else f x

/-- `g_strlcpy(dst, src, n)`: copies at most `n - 1` characters and
NUL-terminates. -/
def g_strlcpy (src : List Char) (n : Nat) : List Char :=
  src.take (n - 1)

/-- `CLAMP(x, low, high)` from glib, on C ints. -/
def CLAMP (x low high : Int) : Int := min (max x low) high

/-- The `plugins/lighttable/filtering/*` configuration keys touched by the
module, plus `other` standing for every persistent key the module never
names. -/
structure Conf where
  /-- key `num_rules` (int) -/
  num_rules : Int
  /-- keys `item%1d` (int) -/
  item : Nat → Int
  /-- keys `mode%1d` (int) -/
  mode : Nat → Int
  /-- keys `off%1d` (int) -/
  off : Nat → Int
  /-- keys `string%1d`; `none` models a missing key (NULL from
  `dt_conf_get_string_const`) -/
  str : Nat → Option (List Char)
  /-- keys `history%1d` -/
  history : Nat → Option (List Char)
  /-- key `history_max` (int, read-only for this module) -/
  history_max : Int
  /-- keys `nb_use_%d` (int) -/
  nb_use : Int → Int
  /-- key `order` (int) -/
  order : Int
  /-- every persistent configuration key not named above -/
  other : String → Int

/-- `dt_lib_filtering_params_rule_t`: `item`, `mode` and `off` are
`uint32_t : 16` bitfields, `string` is a `char[PARAM_STRING_SIZE]`
buffer (modelled up to its terminating NUL). -/
structure ParamsRule where
  item : Nat
  mode : Nat
  off : Nat
  string : List Char
deriving DecidableEq

/-- The all-zero rule slot produced by `memset(p, 0, ...)`. -/
def zeroRule : ParamsRule := ⟨0, 0, 0, []⟩

/-- `dt_lib_filtering_params_t`: a rule count and a `rule[MAX_RULES]`
array (indices `≥ MAX_RULES` of the function are irrelevant). -/
structure Params where
  rules : Nat
  rule : Nat → ParamsRule

/-- Assignment of a C `int` to a `uint32_t : 16` bitfield: value modulo
`2^16`. -/
def toBits16 (n : Int) : Nat := (n % 65536).toNat

/-- `_filters_update_params` (filtering.c lines 180–214): resets the
params block to zero, clamps `num_rules - 1` into `[0, MAX_RULES-1]` and
reads back items, modes, off flags and strings of rule slots
`0 .. active`; a missing (`NULL`) string key leaves that slot's string
zeroed.  `active_rules` is the local
`active = CLAMP(num_rules - 1, 0, MAX_RULES - 1)`. -/
def active_rules (c : Conf) : Nat :=
  (CLAMP (c.num_rules - 1) 0 ((MAX_RULES : Int) - 1)).toNat

/-- The params block `_filters_update_params` rebuilds (see
`active_rules` above). -/
def filters_update_params (c : Conf) : Params :=
  { rules := active_rules c + 1
    rule := fun i =>
      if i ≤ active_rules c ∧ i < MAX_RULES then
        { item := toBits16 (c.item i)
          mode := toBits16 (c.mode i)
          off := toBits16 (c.off i)
          string := match c.str i with
            | some s => g_strlcpy s PARAM_STRING_SIZE
            | none => [] }
      else zeroRule }

/-- `get_params` (filtering.c lines 216–225): refreshes the internal
params from the configuration and returns a copy. -/
def get_params (c : Conf) : Params :=
  filters_update_params c

/-- The body of the `set_params` loop: writes `item%1u`, `mode%1u`,
`off%1u` and `string%1u` for one rule index. -/
def set_params_write (p : Params) (c : Conf) (i : Nat) : Conf :=
  { c with
    item := fupd c.item i ((p.rule i).item : Int)
    mode := fupd c.mode i ((p.rule i).mode : Int)
    off := fupd c.off i ((p.rule i).off : Int)
    str := fupd c.str i (some (p.rule i).string) }

/-- `set_params` (filtering.c lines 227–277), restricted to its effect on
the configuration store: writes the per-rule keys for indices
`0 .. p.rules - 1`, then writes `num_rules`.  (The view-filter reset, the
refresh of the in-memory mirror and the GUI/query updates do not write
any configuration key.) -/
def set_params (p : Params) (c : Conf) : Conf :=
  let c' := (List.range p.rules).foldl (set_params_write p) c
  { c' with num_rules := (p.rules : Int) }

end Filtering

namespace Filtering

lemma fupd_same {α β : Type} [DecidableEq α] (f : α → β) (a : α) (b : β) :
    fupd f a b a = b := by simp [fupd]

lemma fupd_other {α β : Type} [DecidableEq α] (f : α → β) (a : α) (b : β)
    (x : α) (h : x ≠ a) : fupd f a b x = f x := by simp [fupd, h]

/-- Effect of the `set_params` write loop on each per-rule key family. -/
lemma set_params_loop_spec (p : Params) (l : List Nat) (c : Conf) (j : Nat) :
    (l.foldl (set_params_write p) c).item j
        = (if j ∈ l then ((p.rule j).item : Int) else c.item j)
    ∧ (l.foldl (set_params_write p) c).mode j
        = (if j ∈ l then ((p.rule j).mode : Int) else c.mode j)
    ∧ (l.foldl (set_params_write p) c).off j
        = (if j ∈ l then ((p.rule j).off : Int) else c.off j)
    ∧ (l.foldl (set_params_write p) c).str j
        = (if j ∈ l then some (p.rule j).string else c.str j) := by
  induction l generalizing c with
  | nil => simp
  | cons a l ih =>
    rcases ih (set_params_write p c a) with ⟨h1, h2, h3, h4⟩
    simp only [List.foldl_cons, List.mem_cons]
    rw [h1, h2, h3, h4]
    by_cases hja : j = a
    · subst hja
      by_cases hj : j ∈ l <;>
        simp [set_params_write, fupd_same, hj]
    · by_cases hj : j ∈ l <;>
        simp [set_params_write, fupd_other _ _ _ _ hja, hja, hj]

lemma set_params_loop_num (p : Params) (l : List Nat) (c : Conf) :
    (l.foldl (set_params_write p) c).num_rules = c.num_rules := by
  induction l generalizing c with
  | nil => rfl
  | cons a l ih => simpa [set_params_write] using ih (set_params_write p c a)

lemma toBits16_coe (n : Nat) (h : n < 65536) : toBits16 (n : Int) = n := by
  unfold toBits16
  omega

end Filtering

namespace Filtering

lemma set_params_num (p : Params) (c : Conf) :
    (set_params p c).num_rules = (p.rules : Int) := rfl

lemma active_rules_set_params (p : Params) (c : Conf) (h1 : 1 ≤ p.rules)
    (h2 : p.rules ≤ MAX_RULES) :
    active_rules (set_params p c) = p.rules - 1 := by
  unfold active_rules CLAMP
  rw [set_params_num]
  unfold MAX_RULES at h2 ⊢
  rw [max_eq_left (by omega), min_eq_left (by omega)]
  omega

lemma set_params_item (p : Params) (c : Conf) (j : Nat) (hj : j < p.rules) :
    (set_params p c).item j = ((p.rule j).item : Int) := by
  have h := (set_params_loop_spec p (List.range p.rules) c j).1
  show ((List.range p.rules).foldl (set_params_write p) c).item j = _
  rw [h]
  simp [List.mem_range, hj]

lemma set_params_mode (p : Params) (c : Conf) (j : Nat) (hj : j < p.rules) :
    (set_params p c).mode j = ((p.rule j).mode : Int) := by
  have h := (set_params_loop_spec p (List.range p.rules) c j).2.1
  show ((List.range p.rules).foldl (set_params_write p) c).mode j = _
  rw [h]
  simp [List.mem_range, hj]

lemma set_params_off (p : Params) (c : Conf) (j : Nat) (hj : j < p.rules) :
    (set_params p c).off j = ((p.rule j).off : Int) := by
  have h := (set_params_loop_spec p (List.range p.rules) c j).2.2.1
  show ((List.range p.rules).foldl (set_params_write p) c).off j = _
  rw [h]
  simp [List.mem_range, hj]

lemma set_params_str (p : Params) (c : Conf) (j : Nat) (hj : j < p.rules) :
    (set_params p c).str j = some (p.rule j).string := by
  have h := (set_params_loop_spec p (List.range p.rules) c j).2.2.2
  show ((List.range p.rules).foldl (set_params_write p) c).str j = _
  rw [h]
  simp [List.mem_range, hj]

/-- **C1.** Round-trip of rule-set persistence: for every parameter block
`p` with `1 ≤ p.rules ≤ 10`, `set_params` followed by `get_params`
returns a block with the same rule count, whose `item`, `mode`, `off` and
`string` fields equal those of `p` on every rule index `i < p.rules`
(strings fit the 256-byte `PARAM_STRING_SIZE` buffer, i.e. have at most
255 characters, and `item`/`mode`/`off` are 16-bit bitfields), and whose
rule slots at indices `≥ p.rules` are zeroed. -/
theorem set_params_get_params_roundtrip (p : Params) (c : Conf)
    (h1 : 1 ≤ p.rules) (h2 : p.rules ≤ MAX_RULES)
    (hitem : ∀ i, (p.rule i).item < 65536)
    (hmode : ∀ i, (p.rule i).mode < 65536)
    (hoff : ∀ i, (p.rule i).off < 65536)
    (hstr : ∀ i, (p.rule i).string.length < PARAM_STRING_SIZE) :
    (get_params (set_params p c)).rules = p.rules
    ∧ (∀ i, i < p.rules →
        ((get_params (set_params p c)).rule i).item = (p.rule i).item
        ∧ ((get_params (set_params p c)).rule i).mode = (p.rule i).mode
        ∧ ((get_params (set_params p c)).rule i).off = (p.rule i).off
        ∧ ((get_params (set_params p c)).rule i).string = (p.rule i).string)
    ∧ (∀ j, p.rules ≤ j → j < MAX_RULES →
        (get_params (set_params p c)).rule j = zeroRule) := by
  have hact := active_rules_set_params p c h1 h2
  refine ⟨?_, ?_, ?_⟩
  · show active_rules (set_params p c) + 1 = p.rules
    rw [hact]
    omega
  · intro i hi
    have hc1 : i ≤ active_rules (set_params p c) := by rw [hact]; omega
    have hc2 : i < MAX_RULES := by unfold MAX_RULES at h2 ⊢; omega
    have hs := set_params_str p c i hi
    simp only [get_params, filters_update_params, hc1, hc2, and_self, if_true,
      set_params_item p c i hi, set_params_mode p c i hi, set_params_off p c i hi, hs]
    refine ⟨toBits16_coe _ (hitem i), toBits16_coe _ (hmode i),
      toBits16_coe _ (hoff i), ?_⟩
    unfold g_strlcpy PARAM_STRING_SIZE
    have := hstr i
    unfold PARAM_STRING_SIZE at this
    exact List.take_of_length_le (by omega)
  · intro j hj1 hj2
    have hc1 : ¬(j ≤ active_rules (set_params p c) ∧ j < MAX_RULES) := by
      rw [hact]
      intro hcontra
      omega
    simp only [get_params, filters_update_params, hc1, if_false]

/-- A concrete parameter block and configuration used by the witnesses. -/
def demoRule : ParamsRule := ⟨3, 1, 0, ['a', 'b']⟩

def demoParams : Params := ⟨1, fun _ => demoRule⟩

def demoConf : Conf :=
  { num_rules := 0
    item := fun _ => 0
    mode := fun _ => 0
    off := fun _ => 0
    str := fun _ => none
    history := fun _ => none
    history_max := 10
    nb_use := fun _ => 0
    order := 0
    other := fun _ => 0 }

theorem set_params_get_params_roundtrip_witness :
    1 ≤ demoParams.rules ∧ demoParams.rules ≤ MAX_RULES
    ∧ (get_params (set_params demoParams demoConf)).rules = demoParams.rules :=
  ⟨by decide, by decide,
    (set_params_get_params_roundtrip demoParams demoConf (by decide) (by decide)
      (fun _ => by show 3 < 65536; decide)
      (fun _ => by show 1 < 65536; decide)
      (fun _ => by show 0 < 65536; decide)
      (fun _ => by show (['a', 'b'] : List Char).length < PARAM_STRING_SIZE; decide)).1⟩

end Filtering

namespace Filtering

/-- The in-memory module state relevant to the claims:
`dt_lib_filtering_t.nb_rules` (a C `int`) together with the
configuration store. -/
structure LibState where
  conf : Conf
  nb_rules : Int

/-- `_filters_gui_update` (filtering.c lines 1996–2033), restricted to its
effect on this state: reloads `nb_rules` as
`CLAMP(num_rules, 0, MAX_RULES)`; the widget rebuilding only reads the
configuration. -/
def filters_gui_update (s : LibState) : LibState :=
  { s with nb_rules := CLAMP s.conf.num_rules 0 (MAX_RULES : Int) }

/-- `gui_init` (filtering.c lines 2336–2396): zeroes `nb_rules` (via
`calloc` and the explicit `d->nb_rules = 0`) and ends by calling
`_filters_gui_update`. -/
def gui_init (c0 : Conf) : LibState :=
  filters_gui_update { conf := c0, nb_rules := 0 }

/-- One iteration of the move-up loop of `_event_rule_close` (filtering.c
lines 401–425): reads `mode`, `item`, `off` and `string` of slot `i + 1`
and, when the string key is present (non-NULL), writes all four onto slot
`i`. -/
def rule_close_shift_write (c : Conf) (i : Nat) : Conf :=
  match c.str (i + 1) with
  | some s =>
    { c with
      mode := fupd c.mode i (c.mode (i + 1))
      item := fupd c.item i (c.item (i + 1))
      off := fupd c.off i (c.off (i + 1))
      str := fupd c.str i (some s) }
  | none => c

/-- `_event_rule_close` (filtering.c lines 389–429) for the rule at
position `k` (`rule->num`): refuses when no rule is active, otherwise
decrements `nb_rules`, persists it, shifts slots `k+1 .. MAX_RULES-1`
up by one, and ends with `_filters_gui_update`. -/
def event_rule_close (k : Nat) (s : LibState) : LibState :=
  if s.nb_rules ≤ 0 then s
  else
    filters_gui_update
      { conf := (List.range' k (MAX_RULES - 1 - k)).foldl rule_close_shift_write
          { s.conf with num_rules := s.nb_rules - 1 }
        nb_rules := s.nb_rules - 1 }

/-- Modelled from the spec: `dt_lib_collect_mode_t` is declared in
`libs/collect.h`, which is outside this source slice; the spec lists the
boolean operators as AND/OR/AND-NOT, AND first, so AND is the first
enumerator. -/
def DT_LIB_COLLECT_MODE_AND : Int := 0

/-- `_event_append_rule` (filtering.c lines 1748–1780): for a
non-negative popup id, refuses when `MAX_RULES` rules are already
active, otherwise writes an empty rule at slot `nb_rules`, increments
and persists the count, bumps the property's `nb_use_%d` counter and
ends with `_filters_gui_update`. -/
def event_append_rule (m : Int) (s : LibState) : LibState :=
  if 0 ≤ m then
    if (MAX_RULES : Int) ≤ s.nb_rules then s
    else
      filters_gui_update
        { conf :=
            { s.conf with
              item := fupd s.conf.item s.nb_rules.toNat m
              mode := fupd s.conf.mode s.nb_rules.toNat DT_LIB_COLLECT_MODE_AND
              off := fupd s.conf.off s.nb_rules.toNat 0
              str := fupd s.conf.str s.nb_rules.toNat (some [])
              num_rules := s.nb_rules + 1
              nb_use := fupd s.conf.nb_use m (s.conf.nb_use m + 1) }
          nb_rules := s.nb_rules + 1 }
  else s

/-- `gui_reset` (filtering.c lines 2035–2041): zeroes the persisted rule
count. -/
def gui_reset (s : LibState) : LibState :=
  { s with conf := { s.conf with num_rules := 0 } }

/-- One iteration of the deduplication loop of `_history_save`
(filtering.c lines 316–334), carrying the running `move` counter: a slot
equal to the serialization `buf` is emptied and counted; once `move > 0`
every later slot is emptied and its value rewritten `move` slots
earlier. -/
def history_dedup_step (buf : List Char) (st : Conf × Nat) (i : Nat) : Conf × Nat :=
  if st.1.history i = some buf then
    ({ st.1 with history := fupd st.1.history i (some []) }, st.2 + 1)
  else if 0 < st.2 then
    ({ st.1 with
        history := fupd (fupd st.1.history i (some [])) (i - st.2) (st.1.history i) },
      st.2)
  else st

/-- One iteration of the shift loop of `_history_save` (filtering.c lines
337–344): copies slot `i` onto slot `i + 1`. -/
def history_shift_write (c : Conf) (i : Nat) : Conf :=
  { c with history := fupd c.history (i + 1) (c.history i) }

/-- `_history_save` (filtering.c lines 297–348) with the serialization of
the current rule set (`dt_collection_serialize`, outside this slice)
passed in as `buf`: returns unchanged when slot `history0` already holds
`buf`; otherwise removes duplicates of `buf` from slots
`1 .. history_max - 1` (compacting the survivors), shifts every slot down
by one (dropping the last) and writes `buf` into slot 0. -/
def history_after_shift (buf : List Char) (c : Conf) : Conf :=
  ((List.range ((c.history_max - 1).toNat)).reverse).foldl history_shift_write
    (((List.range' 1 ((c.history_max - 1).toNat)).foldl (history_dedup_step buf)
      (c, 0)).1)

/-- The overall effect of `_history_save` (early return, then the two
loops of `history_after_shift`, then the final write of slot 0). -/
def history_save (buf : List Char) (c : Conf) : Conf :=
  if c.history 0 = some buf then c
  else
    { history_after_shift buf c with
      history := fupd (history_after_shift buf c).history 0 (some buf) }

/-- `_conf_update_rule` (filtering.c lines 351–366) for the rule at
position `num`: persists the rule's raw text, property, operator mode and
on/off flag, then calls `_history_save` (with serialization `buf`). -/
def conf_update_rule (num : Nat) (prop wmode woff : Int) (raw buf : List Char)
    (c : Conf) : Conf :=
  history_save buf
    { c with
      str := fupd c.str num (some raw)
      item := fupd c.item num prop
      mode := fupd c.mode num wmode
      off := fupd c.off num woff }

/-- `_event_rule_change_type` (filtering.c lines 1693–1746) restricted to
its configuration effect: no-op when the property is unchanged; otherwise
bumps `nb_use_%d`, persists the rule with an empty raw text via
`_conf_update_rule`, and, for the first rule switching onto the tag
property, saves the collection's sort order into the `order` key.
`tagprop` stands for `DT_COLLECTION_PROP_TAG` and `sortval` for the
current sort order, both defined outside this slice. -/
def event_rule_change_type (newprop oldprop : Int) (num : Nat) (wmode woff : Int)
    (buf : List Char) (sortval tagprop : Int) (c : Conf) : Conf :=
  if newprop = oldprop then c
  else
    let c2 := conf_update_rule num newprop wmode woff [] buf
      { c with nb_use := fupd c.nb_use newprop (c.nb_use newprop + 1) }
    if num = 0 ∧ oldprop ≠ tagprop ∧ newprop = tagprop then
      { c2 with order := sortval }
    else c2

/-- The state transitions of the module: each constructor is one of the
modelled entry points. -/
inductive Step : LibState → LibState → Prop where
  | append (m : Int) (s : LibState) : Step s (event_append_rule m s)
  | close (k : Nat) (s : LibState) : Step s (event_rule_close k s)
  | guiUpdate (s : LibState) : Step s (filters_gui_update s)
  | setParams (p : Params) (s : LibState) :
      Step s (filters_gui_update { conf := set_params p s.conf, nb_rules := s.nb_rules })
  | reset (s : LibState) : Step s (gui_reset s)
  | histSave (buf : List Char) (s : LibState) :
      Step s { s with conf := history_save buf s.conf }
  | confUpdate (num : Nat) (prop wmode woff : Int) (raw buf : List Char) (s : LibState) :
      Step s { s with conf := conf_update_rule num prop wmode woff raw buf s.conf }
  | changeType (newprop oldprop : Int) (num : Nat) (wmode woff : Int)
      (buf : List Char) (sortval tagprop : Int) (s : LibState) :
      Step s { s with conf := event_rule_change_type newprop oldprop num wmode woff
                        buf sortval tagprop s.conf }

/-- A state reachable from a fresh `gui_init` under any starting
configuration. -/
def Reachable (c0 : Conf) (s : LibState) : Prop :=
  Relation.ReflTransGen Step (gui_init c0) s

end Filtering

namespace Filtering

lemma CLAMP_lower (x low high : Int) (h : low ≤ high) : low ≤ CLAMP x low high := by
  unfold CLAMP
  exact le_min (le_max_right x low) h

lemma CLAMP_upper (x low high : Int) : CLAMP x low high ≤ high := by
  unfold CLAMP
  exact min_le_right _ _

/-- The bounds invariant on `nb_rules`. -/
def NbInv (s : LibState) : Prop :=
  0 ≤ s.nb_rules ∧ s.nb_rules ≤ (MAX_RULES : Int)

lemma nbinv_gui_update (s : LibState) : NbInv (filters_gui_update s) := by
  constructor
  · exact CLAMP_lower _ _ _ (by norm_num [MAX_RULES])
  · exact CLAMP_upper _ _ _

lemma nbinv_step {s t : LibState} (hst : Step s t) (hs : NbInv s) : NbInv t := by
  cases hst with
  | append m s =>
    unfold event_append_rule
    by_cases h0 : 0 ≤ m
    · by_cases h1 : (MAX_RULES : Int) ≤ s.nb_rules
      · simpa [h0, h1] using hs
      · simpa [h0, h1] using nbinv_gui_update _
    · simpa [h0] using hs
  | close k s =>
    unfold event_rule_close
    by_cases h0 : s.nb_rules ≤ 0
    · simpa [h0] using hs
    · simpa [h0] using nbinv_gui_update _
  | guiUpdate s => exact nbinv_gui_update s
  | setParams p s => exact nbinv_gui_update _
  | reset s => exact hs
  | histSave buf s => exact hs
  | confUpdate num prop wmode woff raw buf s => exact hs
  | changeType newprop oldprop num wmode woff buf sortval tagprop s => exact hs

/-- **C2.** Bounded rule count invariant: in every state reachable from
`gui_init` the in-memory `nb_rules` lies in `[0, MAX_RULES]`; moreover
`_event_append_rule` refuses to append an eleventh rule,
`_event_rule_close` returns without effect when the count is already 0
(or negative), `_filters_gui_update` reloads `nb_rules` as the persisted
count clamped into `[0, MAX_RULES]`, and `gui_init` starts from
`nb_rules = 0` before its final `_filters_gui_update`. -/
theorem nb_rules_bounded (c0 : Conf) (s : LibState) (h : Reachable c0 s) :
    (0 ≤ s.nb_rules ∧ s.nb_rules ≤ (MAX_RULES : Int))
    ∧ (∀ (m : Int) (t : LibState), (MAX_RULES : Int) ≤ t.nb_rules →
        event_append_rule m t = t)
    ∧ (∀ (k : Nat) (t : LibState), t.nb_rules ≤ 0 → event_rule_close k t = t)
    ∧ (∀ t : LibState,
        (filters_gui_update t).nb_rules = CLAMP t.conf.num_rules 0 (MAX_RULES : Int))
    ∧ (∀ c : Conf, gui_init c = filters_gui_update { conf := c, nb_rules := 0 }) := by
  refine ⟨?_, ?_, ?_, ?_, ?_⟩
  · have : NbInv s := by
      induction h with
      | refl => exact nbinv_gui_update _
      | tail _ hst ih => exact nbinv_step hst ih
    exact this
  · intro m t ht
    unfold event_append_rule
    by_cases h0 : 0 ≤ m <;> simp [h0, ht]
  · intro k t ht
    unfold event_rule_close
    simp [ht]
  · intro t
    rfl
  · intro c
    rfl

theorem nb_rules_bounded_witness :
    Reachable demoConf (gui_init demoConf)
    ∧ 0 ≤ (gui_init demoConf).nb_rules :=
  ⟨Relation.ReflTransGen.refl,
    (nb_rules_bounded demoConf (gui_init demoConf) Relation.ReflTransGen.refl).1.1⟩

end Filtering

namespace Filtering

lemma shift_write_of_some (c : Conf) (i : Nat) (s : List Char)
    (h : c.str (i + 1) = some s) :
    rule_close_shift_write c i =
      { c with
        mode := fupd c.mode i (c.mode (i + 1))
        item := fupd c.item i (c.item (i + 1))
        off := fupd c.off i (c.off (i + 1))
        str := fupd c.str i (some s) } := by
  unfold rule_close_shift_write
  rw [h]

/-- Effect of the move-up loop of `_event_rule_close` over the contiguous
index range `a, a+1, …, a+n-1`, assuming every string key is present: each
processed slot receives the values of the next slot, all other slots and
the rule count are untouched. -/
lemma rule_close_loop_spec (n : Nat) :
    ∀ (a : Nat) (c : Conf), (∀ x, (c.str x).isSome) →
      (∀ j, a ≤ j → j < a + n →
          ((List.range' a n).foldl rule_close_shift_write c).item j = c.item (j + 1)
          ∧ ((List.range' a n).foldl rule_close_shift_write c).mode j = c.mode (j + 1)
          ∧ ((List.range' a n).foldl rule_close_shift_write c).off j = c.off (j + 1)
          ∧ ((List.range' a n).foldl rule_close_shift_write c).str j = c.str (j + 1))
      ∧ (∀ j, j < a ∨ a + n ≤ j →
          ((List.range' a n).foldl rule_close_shift_write c).item j = c.item j
          ∧ ((List.range' a n).foldl rule_close_shift_write c).mode j = c.mode j
          ∧ ((List.range' a n).foldl rule_close_shift_write c).off j = c.off j
          ∧ ((List.range' a n).foldl rule_close_shift_write c).str j = c.str j)
      ∧ ((List.range' a n).foldl rule_close_shift_write c).num_rules = c.num_rules := by
  induction n with
  | zero =>
    intro a c _
    refine ⟨fun j h1 h2 => absurd h2 (by omega), fun j _ => ⟨rfl, rfl, rfl, rfl⟩, rfl⟩
  | succ n ih =>
    intro a c hs
    obtain ⟨s, hsome⟩ := Option.isSome_iff_exists.mp (hs (a + 1))
    have hw := shift_write_of_some c a s hsome
    have hs' : ∀ x, ((rule_close_shift_write c a).str x).isSome := by
      intro x
      rw [hw]
      by_cases hx : x = a
      · subst hx; simp [fupd_same]
      · show ((fupd c.str a (some s)) x).isSome
        rw [fupd_other _ _ _ _ hx]
        exact hs x
    have hfold : (List.range' a (n + 1)).foldl rule_close_shift_write c
        = (List.range' (a + 1) n).foldl rule_close_shift_write
            (rule_close_shift_write c a) := by
      rw [List.range'_succ]
      rfl
    rcases ih (a + 1) (rule_close_shift_write c a) hs' with ⟨hin, hout, hnum⟩
    have hfield : ∀ x, x ≠ a →
        (rule_close_shift_write c a).item x = c.item x
        ∧ (rule_close_shift_write c a).mode x = c.mode x
        ∧ (rule_close_shift_write c a).off x = c.off x
        ∧ (rule_close_shift_write c a).str x = c.str x := by
      intro x hx
      rw [hw]
      exact ⟨fupd_other _ _ _ _ hx, fupd_other _ _ _ _ hx,
        fupd_other _ _ _ _ hx, fupd_other _ _ _ _ hx⟩
    have hfield_a :
        (rule_close_shift_write c a).item a = c.item (a + 1)
        ∧ (rule_close_shift_write c a).mode a = c.mode (a + 1)
        ∧ (rule_close_shift_write c a).off a = c.off (a + 1)
        ∧ (rule_close_shift_write c a).str a = c.str (a + 1) := by
      rw [hw]
      refine ⟨fupd_same _ _ _, fupd_same _ _ _, fupd_same _ _ _, ?_⟩
      show fupd c.str a (some s) a = c.str (a + 1)
      rw [fupd_same, hsome]
    refine ⟨?_, ?_, ?_⟩
    · intro j h1 h2
      rw [hfold]
      by_cases hja : j = a
      · subst hja
        rcases hout j (Or.inl (by omega)) with ⟨e1, e2, e3, e4⟩
        rw [e1, e2, e3, e4]
        exact hfield_a
      · rcases hin j (by omega) (by omega) with ⟨e1, e2, e3, e4⟩
        rw [e1, e2, e3, e4]
        exact hfield (j + 1) (by omega)
    · intro j hj
      rw [hfold]
      rcases hout j (by omega) with ⟨e1, e2, e3, e4⟩
      rw [e1, e2, e3, e4]
      exact hfield j (by omega)
    · rw [hfold, hnum, hw]

/-- **C3.** Ordered rule removal: closing the rule at position `k` when at
least one rule is active (and the persisted count mirrors the in-memory
one, all per-rule string keys being present) decrements the persisted
`num_rules` by exactly one, moves the persisted `item`, `mode`, `off` and
`string` values of every slot `k+1 .. MAX_RULES-1` up by one position
(preserving their relative order), and leaves the slots before `k`
unchanged. -/
theorem rule_close_moves_rules_up (k : Nat) (s : LibState)
    (hpos : 1 ≤ s.nb_rules)
    (hsync : s.conf.num_rules = s.nb_rules)
    (hstr : ∀ i, (s.conf.str i).isSome) :
    (event_rule_close k s).conf.num_rules = s.conf.num_rules - 1
    ∧ (∀ j, k ≤ j → j < MAX_RULES - 1 →
        (event_rule_close k s).conf.item j = s.conf.item (j + 1)
        ∧ (event_rule_close k s).conf.mode j = s.conf.mode (j + 1)
        ∧ (event_rule_close k s).conf.off j = s.conf.off (j + 1)
        ∧ (event_rule_close k s).conf.str j = s.conf.str (j + 1))
    ∧ (∀ j, j < k →
        (event_rule_close k s).conf.item j = s.conf.item j
        ∧ (event_rule_close k s).conf.mode j = s.conf.mode j
        ∧ (event_rule_close k s).conf.off j = s.conf.off j
        ∧ (event_rule_close k s).conf.str j = s.conf.str j) := by
  have hneg : ¬s.nb_rules ≤ 0 := by omega
  have hconf : (event_rule_close k s).conf
      = (List.range' k (MAX_RULES - 1 - k)).foldl rule_close_shift_write
          { s.conf with num_rules := s.nb_rules - 1 } := by
    unfold event_rule_close
    rw [if_neg hneg]
    rfl
  have hs1 : ∀ x,
      (({ s.conf with num_rules := s.nb_rules - 1 } : Conf).str x).isSome := hstr
  rcases rule_close_loop_spec (MAX_RULES - 1 - k) k _ hs1 with ⟨hin, hout, hnum⟩
  refine ⟨?_, ?_, ?_⟩
  · rw [hconf, hnum, hsync]
  · intro j h1 h2
    rw [hconf]
    by_cases hk9 : k ≤ MAX_RULES - 1
    · exact hin j h1 (by unfold MAX_RULES at *; omega)
    · exact absurd h2 (by omega)
  · intro j hj
    rw [hconf]
    exact hout j (Or.inl hj)

/-- A concrete state with one active rule and all string keys present. -/
def demoCloseState : LibState :=
  ⟨{ demoConf with num_rules := 1, str := fun _ => some [] }, 1⟩

theorem rule_close_moves_rules_up_witness :
    1 ≤ demoCloseState.nb_rules
    ∧ (event_rule_close 0 demoCloseState).conf.num_rules
        = demoCloseState.conf.num_rules - 1 :=
  ⟨by decide,
    (rule_close_moves_rules_up 0 demoCloseState (by decide) (by decide)
      (fun i => rfl)).1⟩

end Filtering

namespace Filtering

lemma range'_one_concat (n : Nat) :
    List.range' 1 (n + 1) = List.range' 1 n ++ [n + 1] := by
  rw [List.range'_concat]
  simp [Nat.add_comm]

/-- The entries of history slots `1 .. n` that survive the deduplication
loop of `_history_save`: those different from the serialization `buf`, in
their original order. -/
def survivors (buf : List Char) (c : Conf) (n : Nat) : List (Option (List Char)) :=
  ((List.range' 1 n).map c.history).filter (fun o => o ≠ some buf)

lemma survivors_succ (buf : List Char) (c : Conf) (n : Nat) :
    survivors buf c (n + 1)
      = survivors buf c n
        ++ (if c.history (n + 1) = some buf then [] else [c.history (n + 1)]) := by
  unfold survivors
  rw [range'_one_concat, List.map_append, List.filter_append]
  by_cases h : c.history (n + 1) = some buf <;> simp [h]

/-- Invariant of the deduplication loop of `_history_save` after scanning
slots `1 .. n`: the `move` counter equals the number of removed entries,
slot 0 and slots beyond `n` are untouched, and the scanned slots hold the
surviving entries compacted to the front, empty strings after them. -/
lemma history_dedup_loop_spec (buf : List Char) (c : Conf) (n : Nat) :
    ((List.range' 1 n).foldl (history_dedup_step buf) (c, 0)).2
        = n - (survivors buf c n).length
    ∧ (survivors buf c n).length ≤ n
    ∧ (∀ j, j = 0 ∨ n < j →
        (((List.range' 1 n).foldl (history_dedup_step buf) (c, 0)).1).history j
          = c.history j)
    ∧ (∀ j, 1 ≤ j → j ≤ n →
        (((List.range' 1 n).foldl (history_dedup_step buf) (c, 0)).1).history j
          = (survivors buf c n).getD (j - 1) (some [])) := by
  induction n with
  | zero =>
    refine ⟨rfl, by simp [survivors], fun j _ => rfl,
      fun j h1 h2 => absurd h2 (by omega)⟩
  | succ n ih =>
    obtain ⟨hmove, hlen, hout, hin⟩ := ih
    set st := (List.range' 1 n).foldl (history_dedup_step buf) (c, 0) with hst
    have hfold : (List.range' 1 (n + 1)).foldl (history_dedup_step buf) (c, 0)
        = history_dedup_step buf st (n + 1) := by
      rw [hst, range'_one_concat, List.foldl_append]
      rfl
    have hread : st.1.history (n + 1) = c.history (n + 1) :=
      hout (n + 1) (Or.inr (by omega))
    by_cases hmatch : st.1.history (n + 1) = some buf
    · have hcm : c.history (n + 1) = some buf := by rw [← hread]; exact hmatch
      have hstep : history_dedup_step buf st (n + 1)
          = ({ st.1 with history := fupd st.1.history (n + 1) (some []) },
              st.2 + 1) := by
        unfold history_dedup_step
        rw [if_pos hmatch]
      have hsurv : survivors buf c (n + 1) = survivors buf c n := by
        rw [survivors_succ, if_pos hcm, List.append_nil]
      refine ⟨?_, ?_, ?_, ?_⟩
      · rw [hfold, hstep, hsurv]
        show st.2 + 1 = n + 1 - (survivors buf c n).length
        omega
      · rw [hsurv]; omega
      · intro j hj
        rw [hfold, hstep]
        show fupd st.1.history (n + 1) (some []) j = c.history j
        rw [fupd_other _ _ _ _ (by omega : j ≠ n + 1)]
        exact hout j (by omega)
      · intro j h1 h2
        rw [hfold, hstep, hsurv]
        show fupd st.1.history (n + 1) (some []) j = _
        by_cases hj : j = n + 1
        · subst hj
          rw [fupd_same, List.getD_eq_default _ _ (by omega)]
        · rw [fupd_other _ _ _ _ hj]
          exact hin j h1 (by omega)
    · have hcm : ¬c.history (n + 1) = some buf := by rw [← hread]; exact hmatch
      have hsurv : survivors buf c (n + 1)
          = survivors buf c n ++ [c.history (n + 1)] := by
        rw [survivors_succ, if_neg hcm]
      have hlen' : (survivors buf c (n + 1)).length
          = (survivors buf c n).length + 1 := by
        rw [hsurv, List.length_append, List.length_singleton]
      by_cases hpos : 0 < st.2
      · -- an earlier slot matched: clear slot n+1 and move its entry up
        have hL : (survivors buf c n).length < n := by omega
        have hidx : n + 1 - st.2 = (survivors buf c n).length + 1 := by omega
        have hstep : history_dedup_step buf st (n + 1)
            = ({ st.1 with
                  history := fupd (fupd st.1.history (n + 1) (some []))
                    ((survivors buf c n).length + 1) (st.1.history (n + 1)) },
                st.2) := by
          unfold history_dedup_step
          rw [if_neg hmatch, if_pos hpos, hidx]
        refine ⟨?_, ?_, ?_, ?_⟩
        · rw [hfold, hstep]
          show st.2 = n + 1 - (survivors buf c (n + 1)).length
          omega
        · omega
        · intro j hj
          rw [hfold, hstep]
          show fupd (fupd st.1.history (n + 1) (some []))
              ((survivors buf c n).length + 1) (st.1.history (n + 1)) j
            = c.history j
          rw [fupd_other _ _ _ _ (by omega : j ≠ (survivors buf c n).length + 1),
            fupd_other _ _ _ _ (by omega : j ≠ n + 1)]
          exact hout j (by omega)
        · intro j h1 h2
          rw [hfold, hstep]
          show fupd (fupd st.1.history (n + 1) (some []))
              ((survivors buf c n).length + 1) (st.1.history (n + 1)) j
            = (survivors buf c (n + 1)).getD (j - 1) (some [])
          by_cases hjL : j = (survivors buf c n).length + 1
          · subst hjL
            rw [fupd_same, hread, hsurv,
              List.getD_append_right _ _ _ _ (by omega)]
            simp
          · rw [fupd_other _ _ _ _ hjL]
            by_cases hj : j = n + 1
            · subst hj
              rw [fupd_same, hsurv, List.getD_eq_default]
              rw [List.length_append, List.length_singleton]
              omega
            · rw [fupd_other _ _ _ _ hj]
              by_cases hsmall : j - 1 < (survivors buf c n).length
              · rw [hsurv, List.getD_append _ _ _ _ hsmall]
                exact hin j h1 (by omega)
              · rw [hsurv, List.getD_eq_default _ _ (by
                  rw [List.length_append, List.length_singleton]; omega)]
                rw [hin j h1 (by omega),
                  List.getD_eq_default _ _ (by omega)]
      · -- no match so far: the iteration leaves everything as it is
        have hL : (survivors buf c n).length = n := by omega
        have hstep : history_dedup_step buf st (n + 1) = st := by
          unfold history_dedup_step
          rw [if_neg hmatch, if_neg hpos]
        refine ⟨?_, ?_, ?_, ?_⟩
        · rw [hfold, hstep]
          omega
        · omega
        · intro j hj
          rw [hfold, hstep]
          exact hout j (by omega)
        · intro j h1 h2
          rw [hfold, hstep]
          by_cases hj : j = n + 1
          · subst hj
            rw [hread, hsurv, List.getD_append_right _ _ _ _ (by omega)]
            have : n + 1 - 1 - (survivors buf c n).length = 0 := by omega
            rw [this]
            simp
          · rw [hsurv, List.getD_append _ _ _ _ (by omega)]
            exact hin j h1 (by omega)

end Filtering

namespace Filtering

/-- Effect of the shift loop of `_history_save` (iterating
`i = n-1, …, 0`, copying slot `i` onto slot `i+1`): every slot
`1 .. n` receives the previous slot's value, slot 0 and slots beyond `n`
are untouched. -/
lemma history_shift_loop_spec (n : Nat) :
    ∀ c : Conf,
      (((List.range n).reverse).foldl history_shift_write c).history 0
          = c.history 0
      ∧ (∀ j, 1 ≤ j → j ≤ n →
          (((List.range n).reverse).foldl history_shift_write c).history j
            = c.history (j - 1))
      ∧ (∀ j, n < j →
          (((List.range n).reverse).foldl history_shift_write c).history j
            = c.history j) := by
  induction n with
  | zero =>
    intro c
    exact ⟨rfl, fun j h1 h2 => absurd h2 (by omega), fun j _ => rfl⟩
  | succ n ih =>
    intro c
    have hrev : (List.range (n + 1)).reverse = n :: (List.range n).reverse := by
      rw [List.range_succ]
      simp
    have hfold : ((List.range (n + 1)).reverse).foldl history_shift_write c
        = ((List.range n).reverse).foldl history_shift_write
            (history_shift_write c n) := by
      rw [hrev]
      rfl
    rcases ih (history_shift_write c n) with ⟨h0, hin, hout⟩
    have hw : ∀ x, (history_shift_write c n).history x
        = if x = n + 1 then c.history n else c.history x := by
      intro x
      show fupd c.history (n + 1) (c.history n) x = _
      by_cases hx : x = n + 1
      · subst hx
        rw [fupd_same, if_pos rfl]
      · rw [fupd_other _ _ _ _ hx, if_neg hx]
    refine ⟨?_, ?_, ?_⟩
    · rw [hfold, h0, hw]
      simp
    · intro j h1 h2
      rw [hfold]
      by_cases hj : j ≤ n
      · rw [hin j h1 hj, hw]
        have : ¬(j - 1 = n + 1) := by omega
        simp [this]
      · have hj1 : j = n + 1 := by omega
        subst hj1
        rw [hout _ (by omega), hw]
        simp
    · intro j hj
      rw [hfold, hout j (by omega), hw]
      have : ¬(j = n + 1) := by omega
      simp [this]

/-- After `_history_save`, slot `history0` holds the serialization of the
current rule set (both in the early-return case and in the general
case). -/
lemma history_save_slot0 (buf : List Char) (c : Conf) :
    (history_save buf c).history 0 = some buf := by
  unfold history_save
  by_cases h : c.history 0 = some buf
  · rw [if_pos h]
    exact h
  · rw [if_neg h]
    show fupd (history_after_shift buf c).history 0 (some buf) 0 = some buf
    exact fupd_same _ _ _

/-- **C4.** Rule-history maintenance by `_history_save` with current
serialization `buf`: afterwards slot `history0` holds `buf`; if it
already did, no slot changes; otherwise slot 1 receives the previous
`history0`, slots `2 .. history_max - 1` receive the previous entries of
slots `1 .. history_max - 1` that differ from `buf` (duplicates of `buf`
removed), compacted in their original relative order with empty entries
after them, and no slot at index `≥ history_max` is touched — so at most
`history_max` entries are retained. -/
theorem history_save_spec (buf : List Char) (c : Conf) :
    (history_save buf c).history 0 = some buf
    ∧ (c.history 0 = some buf → history_save buf c = c)
    ∧ (c.history 0 ≠ some buf →
        (2 ≤ c.history_max → (history_save buf c).history 1 = c.history 0)
        ∧ (∀ j : Nat, 2 ≤ j → (j : Int) < c.history_max →
            (history_save buf c).history j
              = (survivors buf c ((c.history_max - 1).toNat)).getD (j - 2) (some []))
        ∧ (∀ j : Nat, 1 ≤ j → c.history_max ≤ (j : Int) →
            (history_save buf c).history j = c.history j)) := by
  refine ⟨history_save_slot0 buf c, fun h => by unfold history_save; rw [if_pos h], ?_⟩
  intro h
  have hsave : ∀ x, 1 ≤ x →
      (history_save buf c).history x = (history_after_shift buf c).history x := by
    intro x hx
    unfold history_save
    rw [if_neg h]
    show fupd (history_after_shift buf c).history 0 (some buf) x = _
    rw [fupd_other _ _ _ _ (by omega : x ≠ 0)]
  obtain ⟨hmove, hlen, hout, hin⟩ :=
    history_dedup_loop_spec buf c ((c.history_max - 1).toNat)
  obtain ⟨s0, sin, sout⟩ :=
    history_shift_loop_spec ((c.history_max - 1).toNat)
      (((List.range' 1 ((c.history_max - 1).toNat)).foldl (history_dedup_step buf)
        (c, 0)).1)
  refine ⟨?_, ?_, ?_⟩
  · intro hmax
    rw [hsave 1 (by omega), history_after_shift,
      sin 1 (by omega) (by omega)]
    exact hout 0 (Or.inl rfl)
  · intro j h2 hj
    have hjn : j ≤ (c.history_max - 1).toNat := by omega
    rw [hsave j (by omega), history_after_shift,
      sin j (by omega) hjn, hin (j - 1) (by omega) (by omega)]
    congr 1
  · intro j h1 hj
    have hjn : (c.history_max - 1).toNat < j := by omega
    rw [hsave j h1, history_after_shift, sout j hjn]
    exact hout j (Or.inr hjn)

/-- **C9.** Idempotence of history saving: a second `_history_save` with
the same serialization leaves every history slot exactly as the first
call left it, because slot `history0` already equals the serialization
and the function returns early. -/
theorem history_save_idempotent (buf : List Char) (c : Conf) :
    history_save buf (history_save buf c) = history_save buf c := by
  have h := history_save_slot0 buf c
  show (if (history_save buf c).history 0 = some buf then history_save buf c
      else
        { history_after_shift buf (history_save buf c) with
          history := fupd (history_after_shift buf (history_save buf c)).history 0
            (some buf) })
    = history_save buf c
  rw [if_pos h]

end Filtering

namespace Filtering

/-- `_ratio_widget_init` (filtering.c lines 645–677): the result row of
the `SELECT MIN(aspect_ratio), MAX(aspect_ratio)` query as an optional
pair, and the bounds the function ends up with: with no row they keep
their initialisers `min = 0.0`, `max = 4.0`.  The doubles are modelled as
exact rationals; the fallback branch only copies literals. -/
def ratio_widget_bounds (row : Option (ℚ × ℚ)) : ℚ × ℚ :=
  match row with
  | some mm => mm
  | none => (0, 4)

/-- `_iso_widget_init` (filtering.c lines 918–949): the `min`/`max`
locals after the `SELECT MIN(iso), MAX(iso)` query: with no row they keep
their initialisers `min = 50`, `max = 12800`. -/
def iso_widget_query_bounds (row : Option (ℚ × ℚ)) : ℚ × ℚ :=
  match row with
  | some mm => mm
  | none => (50, 12800)

/-- The bounds `_iso_widget_init` stores into the range widget:
`min_r = floor(min)`, `max_r = floor(max) + 1`. -/
def iso_widget_range_bounds (row : Option (ℚ × ℚ)) : ℚ × ℚ :=
  (⌊(iso_widget_query_bounds row).1⌋, ⌊(iso_widget_query_bounds row).2⌋ + 1)

/-- **C6.** Default-value fallbacks on missing data: a missing (NULL)
per-rule string configuration value leaves that rule's string at its
zeroed (empty) default in `_filters_update_params`; and when the MIN/MAX
database query returns no row, the ratio widget keeps its built-in
default bounds 0.0/4.0 and the ISO widget its built-in default query
bounds 50/12800 (stored as the range 50/12801 after the unconditional
`floor`/`+1` adjustment). -/
theorem default_fallbacks (c : Conf) (i : Nat) (hmiss : c.str i = none) :
    ((filters_update_params c).rule i).string = []
    ∧ ratio_widget_bounds none = (0, 4)
    ∧ iso_widget_query_bounds none = (50, 12800)
    ∧ iso_widget_range_bounds none = (50, 12801) := by
  refine ⟨?_, rfl, rfl, by norm_num [iso_widget_range_bounds, iso_widget_query_bounds]⟩
  by_cases hcond : i ≤ active_rules c ∧ i < MAX_RULES
  · simp [filters_update_params, hcond, hmiss]
  · simp [filters_update_params, hcond, zeroRule]

theorem default_fallbacks_witness :
    demoConf.str 0 = none
    ∧ ((filters_update_params demoConf).rule 0).string = [] :=
  ⟨rfl, (default_fallbacks demoConf 0 rfl).1⟩

/-- The rule indices the loop of `_dt_collection_updated` (filtering.c
lines 2048–2065) passes to `_widget_update` when the WHERE clause
changed: `for(int i = 0; i <= d->nb_rules; i++)`, i.e. `0 .. nb_rules`
INCLUSIVE (empty when `nb_rules` is negative). -/
def collection_updated_indices (nb : Int) : List Int :=
  if 0 ≤ nb then (List.range (nb.toNat + 1)).map (fun i => (i : Int)) else []

/-- A persisted configuration with ten rules. -/
def fullConf : Conf := { demoConf with num_rules := (MAX_RULES : Int) }

/-- **C7** fails on the code: starting `gui_init` on a configuration with
ten persisted rules reaches (with zero further steps) a state whose
`nb_rules` is 10, and the loop of `_dt_collection_updated` then passes
index 10 to `_widget_update(&d->rule[10])` — one past the end of the
`rule[MAX_RULES]` array, contradicting the claim that every index stays
below `MAX_RULES`. -/
theorem collection_updated_reads_past_rule_array :
    Reachable fullConf (gui_init fullConf)
    ∧ (gui_init fullConf).nb_rules = (MAX_RULES : Int)
    ∧ (MAX_RULES : Int) ∈ collection_updated_indices (gui_init fullConf).nb_rules
    ∧ ¬((MAX_RULES : Int) < (MAX_RULES : Int)) :=
  ⟨Relation.ReflTransGen.refl, by decide, by decide, by decide⟩

end Filtering

namespace Filtering

/-- `g_strsplit(txt, "/", -1)` on a non-empty string: splits at every
`'/'` (empty tokens kept).  `g_strsplit`'s empty-vector result for the
empty string differs (`split_slash [] = [[]]`) but is unreachable in
`_filename_decode` behind its `strlen == 0` guard. -/
def split_slash : List Char → List (List Char)
  | [] => [[]]
  | ch :: rest =>
    if ch = '/' then [] :: split_slash rest
    else
      match split_slash rest with
      | [] => [[ch]]
      | p :: ps => (ch :: p) :: ps

/-- `_filename_decode` (filtering.c lines 1147–1160): NULL or empty text
is ignored; otherwise the text is split on `'/'` and only a split of
exactly two parts assigns the name/extension outputs.  A `none` result
models "the output arguments are left untouched". -/
def filename_decode (txt : Option (List Char)) : Option (List Char × List Char) :=
  match txt with
  | none => none
  | some t =>
    if t.length = 0 then none
    else if (split_slash t).length = 2 then
      some ((split_slash t).getD 0 [], (split_slash t).getD 1 [])
    else none

/-- The raw text `_filename_changed` (filtering.c lines 1162–1175)
composes from the name and extension entries: `"<name>/<ext>"`. -/
def filename_changed_text (name ext : List Char) : List Char :=
  name ++ '/' :: ext

/-- `g_strv_length(g_strsplit(txt, "/", -1))`: the number of
`'/'`-separated parts, 0 for NULL or the empty string. -/
def filename_parts (txt : Option (List Char)) : Nat :=
  match txt with
  | none => 0
  | some [] => 0
  | some t => (split_slash t).length

lemma split_slash_no_slash (l : List Char) (h : '/' ∉ l) :
    split_slash l = [l] := by
  induction l with
  | nil => rfl
  | cons ch rest ih =>
    have hch : ¬ch = '/' := fun hc => h (hc ▸ List.mem_cons_self ch rest)
    have hrest : '/' ∉ rest := fun hr => h (List.mem_cons_of_mem ch hr)
    unfold split_slash
    rw [if_neg hch, ih hrest]

lemma split_slash_append (a b : List Char) (h : '/' ∉ a) :
    split_slash (a ++ '/' :: b) = a :: split_slash b := by
  induction a with
  | nil =>
    show split_slash ('/' :: b) = [] :: split_slash b
    simp [split_slash]
  | cons ch rest ih =>
    have hch : ¬ch = '/' := fun hc => h (hc ▸ List.mem_cons_self ch rest)
    have hrest : '/' ∉ rest := fun hr => h (List.mem_cons_of_mem ch hr)
    show split_slash (ch :: (rest ++ '/' :: b)) = (ch :: rest) :: split_slash b
    have hstep : split_slash (ch :: (rest ++ '/' :: b))
        = match split_slash (rest ++ '/' :: b) with
          | [] => [[ch]]
          | p :: ps => (ch :: p) :: ps := by
      simp only [split_slash]
      rw [if_neg hch]
    rw [hstep, ih hrest]

/-- **C8.** Filename raw-text round-trip: for every name and extension
containing no `'/'`, composing them as `"name/ext"` (as
`_filename_changed` does) and decoding with `_filename_decode` yields
back exactly the original name and extension; and for every text whose
number of `'/'`-separated parts differs from 2 (including NULL and the
empty string) `_filename_decode` leaves its output arguments
untouched. -/
theorem filename_roundtrip :
    (∀ name ext : List Char, '/' ∉ name → '/' ∉ ext →
        filename_decode (some (filename_changed_text name ext))
          = some (name, ext))
    ∧ (∀ txt : Option (List Char), filename_parts txt ≠ 2 →
        filename_decode txt = none) := by
  constructor
  · intro name ext hn he
    have hsplit : split_slash (filename_changed_text name ext) = [name, ext] := by
      unfold filename_changed_text
      rw [split_slash_append name ext hn, split_slash_no_slash ext he]
    have hlen : (filename_changed_text name ext).length ≠ 0 := by
      unfold filename_changed_text
      simp
    show (if (filename_changed_text name ext).length = 0 then none
        else if (split_slash (filename_changed_text name ext)).length = 2 then
          some ((split_slash (filename_changed_text name ext)).getD 0 [],
            (split_slash (filename_changed_text name ext)).getD 1 [])
        else none)
      = some (name, ext)
    rw [if_neg hlen, hsplit]
    simp
  · intro txt hparts
    match txt with
    | none => rfl
    | some [] => rfl
    | some (ch :: rest) =>
      have h2 : (split_slash (ch :: rest)).length ≠ 2 := hparts
      show (if (ch :: rest).length = 0 then none
          else if (split_slash (ch :: rest)).length = 2 then
            some ((split_slash (ch :: rest)).getD 0 [],
              (split_slash (ch :: rest)).getD 1 [])
          else none)
        = none
      rw [if_neg (by simp), if_neg h2]

theorem filename_roundtrip_witness :
    ('/' ∉ (['a'] : List Char))
    ∧ filename_decode (some (filename_changed_text ['a'] ['b']))
        = some (['a'], ['b']) :=
  ⟨by decide, filename_roundtrip.1 ['a'] ['b'] (by decide) (by decide)⟩

end Filtering

namespace Filtering

lemma set_params_loop_other (p : Params) (l : List Nat) (c : Conf) :
    (l.foldl (set_params_write p) c).other = c.other := by
  induction l generalizing c with
  | nil => rfl
  | cons a l ih => simpa [set_params_write] using ih (set_params_write p c a)

lemma set_params_other (p : Params) (c : Conf) :
    (set_params p c).other = c.other :=
  set_params_loop_other p (List.range p.rules) c

lemma history_dedup_loop_other (buf : List Char) (l : List Nat) (st : Conf × Nat) :
    ((l.foldl (history_dedup_step buf) st).1).other = (st.1).other := by
  induction l generalizing st with
  | nil => rfl
  | cons a l ih =>
    rw [List.foldl_cons, ih]
    unfold history_dedup_step
    by_cases h1 : st.1.history a = some buf
    · rw [if_pos h1]
    · rw [if_neg h1]
      by_cases h2 : 0 < st.2
      · rw [if_pos h2]
      · rw [if_neg h2]

lemma history_shift_loop_other (l : List Nat) (c : Conf) :
    (l.foldl history_shift_write c).other = c.other := by
  induction l generalizing c with
  | nil => rfl
  | cons a l ih => simpa [history_shift_write] using ih (history_shift_write c a)

lemma history_save_other (buf : List Char) (c : Conf) :
    (history_save buf c).other = c.other := by
  unfold history_save
  by_cases h : c.history 0 = some buf
  · rw [if_pos h]
  · rw [if_neg h]
    show (history_after_shift buf c).other = c.other
    unfold history_after_shift
    rw [history_shift_loop_other, history_dedup_loop_other]

lemma conf_update_rule_other (num : Nat) (prop wmode woff : Int)
    (raw buf : List Char) (c : Conf) :
    (conf_update_rule num prop wmode woff raw buf c).other = c.other := by
  unfold conf_update_rule
  rw [history_save_other]

lemma rule_close_loop_other (l : List Nat) (c : Conf) :
    (l.foldl rule_close_shift_write c).other = c.other := by
  induction l generalizing c with
  | nil => rfl
  | cons a l ih =>
    rw [List.foldl_cons, ih]
    unfold rule_close_shift_write
    cases c.str (a + 1) <;> rfl

/-- A state with no rule, used by the counterexample. -/
def emptyState : LibState := ⟨demoConf, 0⟩

/-- **C5 (counterexample).** The claim that the module writes no
persistent configuration key beyond `num_rules` and the per-rule
`item`/`mode`/`off`/`string` keys fails: appending a rule for property 3
also bumps the per-property usage counter key `nb_use_3`. -/
theorem append_writes_nb_use :
    (event_append_rule 3 emptyState).conf.nb_use 3 ≠ emptyState.conf.nb_use 3 := by
  decide

/-- **C5 (amended).** The module's persistent writes are confined to the
`num_rules`, per-rule `item`/`mode`/`off`/`string`, rule-history
`historyN`, per-property usage `nb_use_*` and sort-order `order` keys:
every modelled operation leaves every other persistent configuration key
(the `other` component) unchanged. -/
theorem conf_writes_confined :
    (∀ (p : Params) (c : Conf), (set_params p c).other = c.other)
    ∧ (∀ (buf : List Char) (c : Conf), (history_save buf c).other = c.other)
    ∧ (∀ (num : Nat) (prop wmode woff : Int) (raw buf : List Char) (c : Conf),
        (conf_update_rule num prop wmode woff raw buf c).other = c.other)
    ∧ (∀ (k : Nat) (s : LibState), (event_rule_close k s).conf.other = s.conf.other)
    ∧ (∀ (m : Int) (s : LibState), (event_append_rule m s).conf.other = s.conf.other)
    ∧ (∀ (newprop oldprop : Int) (num : Nat) (wmode woff : Int) (buf : List Char)
          (sortval tagprop : Int) (c : Conf),
        (event_rule_change_type newprop oldprop num wmode woff buf sortval
            tagprop c).other = c.other)
    ∧ (∀ s : LibState, (gui_reset s).conf.other = s.conf.other)
    ∧ (∀ s : LibState, (filters_gui_update s).conf.other = s.conf.other) := by
  refine ⟨set_params_other, history_save_other, conf_update_rule_other,
    ?_, ?_, ?_, fun s => rfl, fun s => rfl⟩
  · intro k s
    unfold event_rule_close
    by_cases h : s.nb_rules ≤ 0
    · rw [if_pos h]
    · rw [if_neg h]
      show ((List.range' k (MAX_RULES - 1 - k)).foldl rule_close_shift_write
        { s.conf with num_rules := s.nb_rules - 1 }).other = s.conf.other
      rw [rule_close_loop_other]
  · intro m s
    unfold event_append_rule
    by_cases h0 : 0 ≤ m
    · rw [if_pos h0]
      by_cases h1 : (MAX_RULES : Int) ≤ s.nb_rules
      · rw [if_pos h1]
      · rw [if_neg h1]
        rfl
    · rw [if_neg h0]
  · intro newprop oldprop num wmode woff buf sortval tagprop c
    unfold event_rule_change_type
    by_cases h0 : newprop = oldprop
    · rw [if_pos h0]
    · rw [if_neg h0]
      by_cases h1 : num = 0 ∧ oldprop ≠ tagprop ∧ newprop = tagprop
      · rw [if_pos h1]
        show (conf_update_rule num newprop wmode woff [] buf
          { c with nb_use := fupd c.nb_use newprop (c.nb_use newprop + 1) }).other
          = c.other
        rw [conf_update_rule_other]
      · rw [if_neg h1]
        show (conf_update_rule num newprop wmode woff [] buf
          { c with nb_use := fupd c.nb_use newprop (c.nb_use newprop + 1) }).other
          = c.other
        rw [conf_update_rule_other]

end Filtering

namespace Filtering

theorem history_save_spec_witness :
    demoConf.history 0 ≠ some ['x']
    ∧ 2 ≤ demoConf.history_max
    ∧ (history_save ['x'] demoConf).history 1 = demoConf.history 0 :=
  ⟨by decide, by decide,
    ((history_save_spec ['x'] demoConf).2.2 (by decide)).1 (by decide)⟩

end Filtering
